import Mathlib

/-!
Shallow embedding of the semantic syntax-highlighting core of
`crates/ide/src/syntax_highlighting.rs` (rust-analyzer), together with
theorems about its range-flattening engine, its token classifier and its
traversal driver.

Machine integers (`u32` text offsets, `u64` hashes) are modelled as `Nat`;
the offsets are only compared and never overflow in the source.  Rust
`assert!`/`unwrap`/`unreachable!` panics are modelled by `Option`-returning
functions: `none` is a panic.
-/

namespace SynHL

/-- Half-open interval of byte offsets; models `TextRange` from the
`text-size` crate (Rust field `end` is called `stop` here because `end`
is a Lean keyword). -/
structure TextRange where
  start : Nat
  stop : Nat
deriving DecidableEq, Repr

/-- Models `TextRange::contains_range`: `self.start() <= other.start() && other.end() <= self.end()`. -/
def TextRange.contains_range (self other : TextRange) : Bool :=
  decide (self.start ≤ other.start ∧ other.stop ≤ self.stop)

/-- Models `TextRange::contains(offset)`: `self.start() <= offset && offset < self.end()`. -/
def TextRange.containsOff (self : TextRange) (off : Nat) : Bool :=
  decide (self.start ≤ off ∧ off < self.stop)

/-- Models `TextRange::is_empty`: `self.start() == self.end()`. -/
def TextRange.isEmpty (r : TextRange) : Bool :=
  decide (r.start = r.stop)

/-- Models `TextRange::intersect`: the common sub-range, `none` when the two
ranges are fully apart (ranges that merely touch yield an empty `some`). -/
def TextRange.intersect (a b : TextRange) : Option TextRange :=
  let s := max a.start b.start
  let e := min a.stop b.stop
  if s ≤ e then some ⟨s, e⟩ else none

/-- A well-formed range has `start ≤ stop`; `TextRange::new` asserts this in
the source, so every range the Rust program ever constructs satisfies it. -/
def TextRange.wf (r : TextRange) : Prop := r.start ≤ r.stop

instance (r : TextRange) : Decidable r.wf := by
  unfold TextRange.wf; infer_instance

/-- The highlight modifiers of `tags.rs` (`HighlightModifier`). -/
inductive HighlightModifier
  | Attribute
  | Definition
  | Documentation
  | ControlFlow
  | Injected
  | Mutable
  | Consuming
  | Unsafe
  | Callable
  | Static
  | Associated
deriving DecidableEq, Repr

/-- `SymbolKind` as used by the highlight tags. -/
inductive SymbolKind
  | Const
  | Static
  | Enum
  | Variant
  | Struct
  | Union
  | Field
  | Function
  | Impl
  | Label
  | LifetimeParam
  | Local
  | MacroSym
  | Module
  | SelfParam
  | Trait
  | TypeAlias
  | TypeParam
  | ConstParam
  | ValueParam
deriving DecidableEq, Repr

/-- The highlight tags of `tags.rs` (`HighlightTag`). -/
inductive HighlightTag
  | Symbol (k : SymbolKind)
  | BoolLiteral
  | BuiltinType
  | ByteLiteral
  | CharLiteral
  | NumericLiteral
  | StringLiteral
  | Attribute
  | Comment
  | EscapeSequence
  | FormatSpecifier
  | Keyword
  | Punctuation
  | Operator
  | UnresolvedReference
deriving DecidableEq, Repr

/-- A tag together with a set of modifiers; the Rust modifier bit-set is
modelled as a duplicate-free list (bit insertion is idempotent). -/
structure Highlight where
  tag : HighlightTag
  mods : List HighlightModifier
deriving DecidableEq, Repr

/-- Models `Highlight::from(tag)` / `Highlight::new(tag)`: no modifiers. -/
def Highlight.ofTag (t : HighlightTag) : Highlight := ⟨t, []⟩

/-- Models `h | modifier` (`BitOr` on `Highlight`): set one modifier bit. -/
def Highlight.addMod (h : Highlight) (m : HighlightModifier) : Highlight :=
  if m ∈ h.mods then h else { h with mods := h.mods ++ [m] }

/-- Whether a modifier bit is set. -/
def Highlight.hasMod (h : Highlight) (m : HighlightModifier) : Bool :=
  decide (m ∈ h.mods)

/-- Models `HighlightedRange`; the `u64` binding hash is a `Nat`. -/
structure HighlightedRange where
  range : TextRange
  highlight : Highlight
  binding_hash : Option Nat
deriving DecidableEq, Repr

/-- One frame (`Vec<HighlightedRange>`) of the flattening stack. -/
abbrev Frame := List HighlightedRange

namespace HighlightedRangeStack

/-- The stack itself (`Vec<Vec<HighlightedRange>>`); the innermost (Rust
`last`) frame is the HEAD of the list here. -/
abbrev Stack := List Frame

/-- Models `HighlightedRangeStack::new`: a single empty frame. -/
def new : Stack := [[]]

/-- Models `HighlightedRangeStack::push`: open a fresh empty frame. -/
def push (st : Stack) : Stack := [] :: st

/-- Models `HighlightedRangeStack::add`: append to the innermost open frame;
`none` models the `expect` panic on an empty stack. -/
def add (st : Stack) (hr : HighlightedRange) : Option Stack :=
  match st with
  | fr :: rest => some ((fr ++ [hr]) :: rest)
  | [] => none

/-- The ordered-insert relation used to model Rust's stable
`sort_by_key(|r| r.range.start())`. -/
def hrLE (a b : HighlightedRange) : Prop := a.range.start ≤ b.range.start

instance : DecidableRel hrLE := fun a b => by
  unfold hrLE; infer_instance

instance : IsTotal HighlightedRange hrLE :=
  ⟨fun a b => Nat.le_total a.range.start b.range.start⟩

instance : IsTrans HighlightedRange hrLE :=
  ⟨fun _ _ _ hab hbc => Nat.le_trans hab hbc⟩

/-- Models `sort_by_key(|r| r.range.start())`; both are stable sorts. -/
def sortByStart (l : Frame) : Frame := l.insertionSort hrLE

/-- The loop body of `pop` in the flattening case: repeatedly shrink the
enclosing `parent` range and splice every child in, dropping zero-length
remnants.  Returns `none` when the `assert!(parent.range.contains_range(..))`
inside the loop (also re-asserted by `intersect`) would panic. -/
def popLoop (prev : Frame) (parent : HighlightedRange) :
    List HighlightedRange → Option Frame
  | [] => some (if parent.range.isEmpty then prev else prev ++ [parent])
  | ele :: rest =>
    if parent.range.contains_range ele.range then
      let before : HighlightedRange :=
        { parent with range := ⟨parent.range.start, ele.range.start⟩ }
      let cloned : HighlightedRange :=
        { parent with range := ⟨ele.range.stop, parent.range.stop⟩ }
      let prev' := if before.range.isEmpty then prev else prev ++ [before]
      popLoop (prev' ++ [ele]) cloned rest
    else none

/-- Models `HighlightedRangeStack::pop`: merge the innermost frame into the
frame below it.  If the enclosing frame's last range does not contain the
first child's range the children are concatenated; otherwise the last range
is split around every child.  `none` models the `unwrap`/`assert!` panics. -/
def pop : Stack → Option Stack
  | children :: prev :: rest =>
    match children.head?, prev.getLast? with
    | some c0, some last =>
      if last.range.contains_range c0.range then
        (popLoop prev.dropLast last children).map (· :: rest)
      else
        some ((prev ++ children) :: rest)
    | _, _ => some ((prev ++ children) :: rest)
  | _ => none

/-- One child step of `pop_and_inject`: locate the parent entry affected by
`child` and splice the child in.  Mirrors the source arm by arm, including
the `unreachable!` panic (modelled by `none`) that fires when no parent
entry fully contains the child, some entry contains the child's start, and
no replacement tag was supplied. -/
def injectChild (overwrite : Option Highlight) (prev : Frame)
    (child : HighlightedRange) : Option Frame :=
  match prev.findIdx? (fun p => p.range.contains_range child.range) with
  | some idx =>
    match prev.get? idx with
    | none => none
    | some p0 =>
      let p := match overwrite with
        | some tag => { p0 with highlight := tag }
        | none => p0
      let before : HighlightedRange :=
        { p with range := ⟨p.range.start, child.range.start⟩ }
      let cloned : HighlightedRange :=
        { p with range := ⟨child.range.stop, p.range.stop⟩ }
      let prev1 := prev.set idx p
      let step :=
        if before.range.isEmpty then (prev1.eraseIdx idx, idx)
        else (prev1.set idx before, idx + 1)
      let prev2 := step.1.insertIdx step.2 child
      some (if cloned.range.isEmpty then prev2
            else prev2.insertIdx (step.2 + 1) cloned)
  | none =>
    match overwrite, prev.findIdx? (fun p => p.range.containsOff child.range.start) with
    | some _, some idx =>
      match prev.get? idx with
      | none => none
      | some p =>
        -- the assert of `intersect_partial`
        if p.range.start ≤ child.range.start ∧ child.range.start ≤ p.range.stop
            ∧ p.range.stop < child.range.stop then
          let truncated : HighlightedRange :=
            { p with range := ⟨p.range.start, child.range.start⟩ }
          let step :=
            if truncated.range.isEmpty then (prev.eraseIdx idx, idx)
            else (prev.set idx truncated, idx + 1)
          some (step.1.insertIdx step.2 child)
        else none
    | _, none =>
      -- `binary_search_by_key(..).unwrap_or_else(|x| x)`: a position at
      -- which inserting `child` keeps the frame sorted by start offset
      -- (the leftmost such position).
      let idx := prev.findIdx (fun p => decide (child.range.start ≤ p.range.start))
      some (prev.insertIdx idx child)
    | none, some _ => none

/-- The `for child in children` loop of `pop_and_inject`. -/
def injectLoop (overwrite : Option Highlight) (prev : Frame) :
    List HighlightedRange → Option Frame
  | [] => some prev
  | c :: cs =>
    match injectChild overwrite prev c with
    | some prev' => injectLoop overwrite prev' cs
    | none => none

/-- Models `HighlightedRangeStack::pop_and_inject`: sort both the innermost
frame and the one below it by start offset, then splice every child into the
frame below, possibly modifying arbitrary prior ranges. -/
def pop_and_inject (overwrite : Option Highlight) : Stack → Option Stack
  | children :: prev :: rest =>
    (injectLoop overwrite (sortByStart prev) (sortByStart children)).map (· :: rest)
  | _ => none

/-- The adjacent-disjointness check of `flattened`:
`left.range.end() <= right.range.start()` for every adjacent pair. -/
def disjointChain : Frame → Bool
  | a :: b :: rest => decide (a.range.stop ≤ b.range.start) && disjointChain (b :: rest)
  | _ => true

/-- Models `HighlightedRangeStack::flattened`: requires exactly one frame
(`assert_eq!(self.stack.len(), 1, ..)`), sorts it by start offset and
asserts adjacent disjointness; `none` models either assertion panicking. -/
def flattened : Stack → Option Frame
  | [fr] =>
    let res := sortByStart fr
    if disjointChain res then some res else none
  | _ => none

end HighlightedRangeStack

namespace HighlightedRangeStack

/-- A `true` result of `disjointChain` gives the adjacent-pair relation. -/
theorem disjointChain_chain' (l : Frame) (h : disjointChain l = true) :
    l.Chain' (fun a b => a.range.stop ≤ b.range.start) := by
  induction l with
  | nil => simp
  | cons a t ih =>
    cases t with
    | nil => simp
    | cons b rest =>
      rw [disjointChain, Bool.and_eq_true, decide_eq_true_eq] at h
      exact List.chain'_cons.mpr ⟨h.1, ih h.2⟩

/-- With well-formed ranges, the head of a disjoint chain is left of every
later element. -/
theorem chain'_rel_head (a : HighlightedRange) (l : List HighlightedRange)
    (hwf : ∀ x ∈ l, x.range.wf)
    (hch : (a :: l).Chain' (fun p q => p.range.stop ≤ q.range.start)) :
    ∀ b ∈ l, a.range.stop ≤ b.range.start := by
  induction l generalizing a with
  | nil => intro b hb; cases hb
  | cons c t ih =>
    have h1 : a.range.stop ≤ c.range.start := (List.chain'_cons.mp hch).1
    intro b hb
    cases hb with
    | head => exact h1
    | tail _ hb' =>
      have hc : c.range.stop ≤ b.range.start :=
        ih c (fun x hx => hwf x (List.mem_cons_of_mem _ hx)) (List.chain'_cons.mp hch).2 b hb'
      have hcwf : c.range.wf := hwf c (List.mem_cons_self _ _)
      exact le_trans h1 (le_trans hcwf hc)

/-- With well-formed ranges an adjacent disjointness chain is fully pairwise. -/
theorem chain'_pairwise_of_wf (l : List HighlightedRange)
    (hwf : ∀ x ∈ l, x.range.wf)
    (hch : l.Chain' (fun a b => a.range.stop ≤ b.range.start)) :
    l.Pairwise (fun a b => a.range.stop ≤ b.range.start) := by
  induction l with
  | nil => exact List.Pairwise.nil
  | cons a t ih =>
    refine List.pairwise_cons.mpr ⟨?_, ?_⟩
    · exact chain'_rel_head a t (fun x hx => hwf x (List.mem_cons_of_mem _ hx)) hch
    · exact ih (fun x hx => hwf x (List.mem_cons_of_mem _ hx)) (List.Chain'.tail hch)

end HighlightedRangeStack

open HighlightedRangeStack in
/-- Claim C1: the sequence returned by `flattened` is sorted by start offset
and pairwise non-overlapping (adjacent ranges may share a boundary but never
overlap), and `flattened` requires that exactly one frame (the root) remains
on the stack when it is called.  Pairwise non-overlap is stated as: each
range ends no later than every later one starts; since `TextRange::new`
asserts `start <= end` in the source, the input ranges are assumed
well-formed. -/
theorem claim_C1_flattened_sorted_disjoint (st : HighlightedRangeStack.Stack)
    (res : List HighlightedRange)
    (hres : flattened st = some res)
    (hwf : ∀ fr ∈ st, ∀ r ∈ fr, r.range.wf) :
    st.length = 1 ∧
    List.Sorted (fun a b : HighlightedRange => a.range.start ≤ b.range.start) res ∧
    List.Pairwise (fun a b : HighlightedRange => a.range.stop ≤ b.range.start) res := by
  cases st with
  | nil => simp [flattened] at hres
  | cons fr rest =>
    cases rest with
    | cons f2 r2 => simp [flattened] at hres
    | nil =>
      simp only [flattened] at hres
      split at hres
      case isTrue hchain =>
        cases hres
        refine ⟨rfl, ?_, ?_⟩
        · exact List.sorted_insertionSort hrLE fr
        · refine chain'_pairwise_of_wf _ ?_ (disjointChain_chain' _ hchain)
          intro x hx
          exact hwf fr (List.mem_cons_self _ _) x ((List.perm_insertionSort hrLE fr).subset hx)
      case isFalse => cases hres

open HighlightedRangeStack in
/-- Claim C1 witness: a concrete two-range stack flattens successfully. -/
theorem claim_C1_flattened_sorted_disjoint_witness :
    ([[ (⟨⟨0, 2⟩, Highlight.ofTag .Keyword, none⟩ : HighlightedRange),
       ⟨⟨5, 7⟩, Highlight.ofTag .Operator, none⟩ ]] : HighlightedRangeStack.Stack).length = 1 ∧
    List.Sorted (fun a b : HighlightedRange => a.range.start ≤ b.range.start)
      [⟨⟨0, 2⟩, Highlight.ofTag .Keyword, none⟩, ⟨⟨5, 7⟩, Highlight.ofTag .Operator, none⟩] ∧
    List.Pairwise (fun a b : HighlightedRange => a.range.stop ≤ b.range.start)
      [⟨⟨0, 2⟩, Highlight.ofTag .Keyword, none⟩, ⟨⟨5, 7⟩, Highlight.ofTag .Operator, none⟩] :=
  claim_C1_flattened_sorted_disjoint
    [[⟨⟨0, 2⟩, Highlight.ofTag .Keyword, none⟩, ⟨⟨5, 7⟩, Highlight.ofTag .Operator, none⟩]]
    [⟨⟨0, 2⟩, Highlight.ofTag .Keyword, none⟩, ⟨⟨5, 7⟩, Highlight.ofTag .Operator, none⟩]
    (by decide) (by decide)

open HighlightedRangeStack in
/-- Claim C2: the ordinary merge.  First conjunct: the documented example,
a parent `[0,23)` (attribute tag) with one child `[16,21)` (string tag)
splits into `[0,16)` attribute, `[16,21)` string, `[21,23)` attribute.
Second and third conjuncts: zero-length remnant pieces (at either edge) are
dropped rather than emitted.  Fourth conjunct: when the enclosing frame's
last-added range does not contain the first child's range, the children are
simply concatenated onto the enclosing frame. -/
theorem claim_C2_pop_merge :
    (pop [[⟨⟨16, 21⟩, Highlight.ofTag .StringLiteral, none⟩],
          [⟨⟨0, 23⟩, Highlight.ofTag .Attribute, none⟩]] =
      some [[⟨⟨0, 16⟩, Highlight.ofTag .Attribute, none⟩,
             ⟨⟨16, 21⟩, Highlight.ofTag .StringLiteral, none⟩,
             ⟨⟨21, 23⟩, Highlight.ofTag .Attribute, none⟩]]) ∧
    (pop [[⟨⟨16, 23⟩, Highlight.ofTag .StringLiteral, none⟩],
          [⟨⟨0, 23⟩, Highlight.ofTag .Attribute, none⟩]] =
      some [[⟨⟨0, 16⟩, Highlight.ofTag .Attribute, none⟩,
             ⟨⟨16, 23⟩, Highlight.ofTag .StringLiteral, none⟩]]) ∧
    (pop [[⟨⟨0, 16⟩, Highlight.ofTag .StringLiteral, none⟩],
          [⟨⟨0, 23⟩, Highlight.ofTag .Attribute, none⟩]] =
      some [[⟨⟨0, 16⟩, Highlight.ofTag .StringLiteral, none⟩,
             ⟨⟨16, 23⟩, Highlight.ofTag .Attribute, none⟩]]) ∧
    (∀ (c : HighlightedRange) (cs : List HighlightedRange)
        (prev : List HighlightedRange)
        (rest : HighlightedRangeStack.Stack) (last : HighlightedRange),
      prev.getLast? = some last →
      last.range.contains_range c.range = false →
      pop ((c :: cs) :: prev :: rest) = some ((prev ++ (c :: cs)) :: rest)) := by
  refine ⟨by decide, by decide, by decide, ?_⟩
  intro c cs prev rest last hlast hnc
  simp only [pop, List.head?_cons, hlast, hnc]
  simp

open HighlightedRangeStack in
/-- Claim C2 witness: the sibling (concatenation) case at a concrete input. -/
theorem claim_C2_pop_merge_witness :
    pop [[(⟨⟨30, 35⟩, Highlight.ofTag .Operator, none⟩ : HighlightedRange)],
         [⟨⟨0, 23⟩, Highlight.ofTag .Attribute, none⟩]] =
      some [[⟨⟨0, 23⟩, Highlight.ofTag .Attribute, none⟩,
             ⟨⟨30, 35⟩, Highlight.ofTag .Operator, none⟩]] :=
  claim_C2_pop_merge.2.2.2 ⟨⟨30, 35⟩, Highlight.ofTag .Operator, none⟩ []
    [⟨⟨0, 23⟩, Highlight.ofTag .Attribute, none⟩] [] ⟨⟨0, 23⟩, Highlight.ofTag .Attribute, none⟩
    (by decide) (by decide)


namespace HighlightedRangeStack

/-- Setting index `i` and inserting right after it lays the list out as
take / new element / inserted element / drop. -/
theorem set_insertIdx_succ {α : Type} (l : List α) (i : Nat) (b c : α)
    (h : i < l.length) :
    (l.set i b).insertIdx (i + 1) c = l.take i ++ b :: c :: l.drop (i + 1) := by
  induction l generalizing i with
  | nil => cases h
  | cons x t ih =>
    cases i with
    | zero => simp [List.insertIdx_succ_cons, List.insertIdx_zero]
    | succ j =>
      have hj : j < t.length := Nat.lt_of_succ_lt_succ h
      simp [List.insertIdx_succ_cons, ih j hj]

/-- Erasing index `i` and inserting at `i` replaces the erased element. -/
theorem eraseIdx_insertIdx_self {α : Type} (l : List α) (i : Nat) (c : α)
    (h : i < l.length) :
    (l.eraseIdx i).insertIdx i c = l.take i ++ c :: l.drop (i + 1) := by
  induction l generalizing i with
  | nil => cases h
  | cons x t ih =>
    cases i with
    | zero => simp [List.insertIdx_zero]
    | succ j =>
      have hj : j < t.length := Nat.lt_of_succ_lt_succ h
      simp [List.insertIdx_succ_cons, ih j hj]

/-- Sorting a singleton frame is the identity. -/
theorem sortByStart_singleton (c : HighlightedRange) : sortByStart [c] = [c] := rfl

end HighlightedRangeStack

open HighlightedRangeStack in
/-- Claim C3 counterexample: in the injecting merge, with a child range not
fully contained in any parent entry but whose start offset lies inside one,
the truncate-and-splice behaviour does NOT hold for every value of the
optional replacement-tag argument: with `none` the source hits
`unreachable!` (modelled by `none`), while with a supplied tag the parent
entry is truncated and the child spliced in. -/
theorem claim_C3_pop_and_inject_counterexample :
    pop_and_inject none
      [[⟨⟨5, 15⟩, Highlight.ofTag .EscapeSequence, none⟩],
       [⟨⟨0, 10⟩, Highlight.ofTag .StringLiteral, none⟩]] = none ∧
    pop_and_inject (some (Highlight.ofTag .Comment))
      [[⟨⟨5, 15⟩, Highlight.ofTag .EscapeSequence, none⟩],
       [⟨⟨0, 10⟩, Highlight.ofTag .StringLiteral, none⟩]] =
      some [[⟨⟨0, 5⟩, Highlight.ofTag .StringLiteral, none⟩,
             ⟨⟨5, 15⟩, Highlight.ofTag .EscapeSequence, none⟩]] := by
  constructor
  · rfl
  · rfl

open HighlightedRangeStack in
/-- Claim C3 (amended): when a replacement tag IS supplied, for a child
range such that no (sorted) parent entry fully contains it but the entry at
`idx` contains the child's start offset, the parent entry is truncated to
end at the child's start — its remainder discarded without reinsertion, and
the truncated piece itself dropped when empty — and the child is spliced in
at that position; all other entries are untouched.  With the argument
`none`, the same situation panics (`unreachable!`), see the counterexample. -/
theorem claim_C3_pop_and_inject_truncates (tag : Highlight)
    (child : HighlightedRange) (prev : List HighlightedRange)
    (rest : List (List HighlightedRange)) (idx : Nat) (p : HighlightedRange)
    (hno : ∀ q ∈ sortByStart prev, q.range.contains_range child.range = false)
    (hfound : (sortByStart prev).findIdx?
      (fun q => q.range.containsOff child.range.start) = some idx)
    (hp : (sortByStart prev).get? idx = some p) :
    pop_and_inject (some tag) ([child] :: prev :: rest) =
      some (((sortByStart prev).take idx
             ++ (if p.range.start = child.range.start then []
                 else [{ p with range := ⟨p.range.start, child.range.start⟩ }])
             ++ child :: (sortByStart prev).drop (idx + 1)) :: rest) := by
  have hlen : idx < (sortByStart prev).length := by
    rcases List.get?_eq_some.mp hp with ⟨h, _⟩
    exact h
  have hgetelem : (sortByStart prev)[idx] = p := by
    rcases List.get?_eq_some.mp hp with ⟨h, hv⟩
    simpa using hv
  have hpred : p.range.containsOff child.range.start = true := by
    rcases List.findIdx?_eq_some_iff_getElem.mp hfound with ⟨h, hpval, _⟩
    rw [hgetelem] at hpval
    exact hpval
  have hmem : p ∈ sortByStart prev := by
    rw [← hgetelem]
    exact List.getElem_mem hlen
  have hpc : p.range.contains_range child.range = false := hno p hmem
  have hstart : p.range.start ≤ child.range.start := by
    rw [TextRange.containsOff, decide_eq_true_eq] at hpred
    exact hpred.1
  have hstartlt : child.range.start < p.range.stop := by
    rw [TextRange.containsOff, decide_eq_true_eq] at hpred
    exact hpred.2
  have hstop : p.range.stop < child.range.stop := by
    rw [TextRange.contains_range] at hpc
    rw [decide_eq_false_iff_not] at hpc
    by_contra hle
    exact hpc ⟨hstart, Nat.le_of_not_lt hle⟩
  have hnone : (sortByStart prev).findIdx?
      (fun q => q.range.contains_range child.range) = none :=
    List.findIdx?_eq_none_iff.mpr hno
  have hassert : (p.range.start ≤ child.range.start ∧
      child.range.start ≤ p.range.stop ∧ p.range.stop < child.range.stop) :=
    ⟨hstart, Nat.le_of_lt hstartlt, hstop⟩
  simp only [pop_and_inject, sortByStart_singleton, injectLoop, injectChild,
    hnone, hfound, hp, if_pos hassert]
  by_cases hemp : p.range.start = child.range.start
  · have hb : ({ p with range := ⟨p.range.start, child.range.start⟩ }
        : HighlightedRange).range.isEmpty = true := by
      simp [TextRange.isEmpty, hemp]
    simp [TextRange.isEmpty, eraseIdx_insertIdx_self _ idx child hlen, injectLoop, hemp]
  · have hb : ({ p with range := ⟨p.range.start, child.range.start⟩ }
        : HighlightedRange).range.isEmpty = false := by
      simp [TextRange.isEmpty, hemp]
    simp [TextRange.isEmpty, hemp, set_insertIdx_succ _ idx _ child hlen, injectLoop]

open HighlightedRangeStack in
/-- Claim C3 witness: the amended truncate-and-splice behaviour at a
concrete input. -/
theorem claim_C3_pop_and_inject_truncates_witness :
    pop_and_inject (some (Highlight.ofTag .Comment))
      [[⟨⟨5, 15⟩, Highlight.ofTag .EscapeSequence, none⟩],
       [⟨⟨0, 10⟩, Highlight.ofTag .StringLiteral, none⟩]] =
      some ((([] : List HighlightedRange)
             ++ (if (0 : Nat) = 5 then []
                 else [⟨⟨0, 5⟩, Highlight.ofTag .StringLiteral, none⟩])
             ++ (⟨⟨5, 15⟩, Highlight.ofTag .EscapeSequence, none⟩ : HighlightedRange)
                :: ([] : List HighlightedRange)) :: ([] : List (List HighlightedRange))) := by
  have h := claim_C3_pop_and_inject_truncates (Highlight.ofTag .Comment)
    ⟨⟨5, 15⟩, Highlight.ofTag .EscapeSequence, none⟩
    [⟨⟨0, 10⟩, Highlight.ofTag .StringLiteral, none⟩] [] 0
    ⟨⟨0, 10⟩, Highlight.ofTag .StringLiteral, none⟩
    (by decide) (by decide) (by decide)
  simpa using h


/-- The syntax kinds consulted by the highlighting core.  `OTHER_NODE` and
`OTHER_TOKEN` stand for the remaining members of the (large) Rust
`SyntaxKind` enumeration, none of which is matched by any arm of
`highlight_element`. -/
inductive SyntaxKind
  | FN
  | NAME
  | NAME_REF
  | ATTR
  | LIFETIME
  | MACRO_CALL
  | TOKEN_TREE
  | PATH
  | PATH_SEGMENT
  | PATH_EXPR
  | ARG_LIST
  | METHOD_CALL_EXPR
  | FIELD_EXPR
  | RECORD_PAT_FIELD
  | REF_EXPR
  | NEVER_TYPE
  | PTR_TYPE
  | PREFIX_EXPR
  | BIN_EXPR
  | RANGE_EXPR
  | RANGE_PAT
  | REST_PAT
  | IMPL
  | IDENT_PAT
  | SELF_PARAM
  | CALL_EXPR
  | STRUCT
  | ENUM
  | VARIANT
  | UNION
  | TRAIT
  | TYPE_ALIAS
  | TYPE_PARAM
  | RECORD_FIELD
  | MODULE
  | CONST
  | STATIC
  | COMMENT
  | STRING
  | BYTE_STRING
  | INT_NUMBER
  | FLOAT_NUMBER
  | BYTE
  | CHAR
  | IDENT
  | WHITESPACE
  | LIFETIME_IDENT
  | QUESTION
  | AMP
  | COLON2
  | THIN_ARROW
  | FAT_ARROW
  | DOT2
  | EQ
  | AT
  | DOT
  | BANG
  | STAR
  | MINUS
  | PLUS
  | SEMICOLON
  | COMMA
  | BREAK_KW
  | CONTINUE_KW
  | ELSE_KW
  | IF_KW
  | LOOP_KW
  | MATCH_KW
  | RETURN_KW
  | WHILE_KW
  | IN_KW
  | FOR_KW
  | UNSAFE_KW
  | TRUE_KW
  | FALSE_KW
  | SELF_KW
  | REF_KW
  | FN_KW
  | LET_KW
  | OTHER_NODE
  | OTHER_TOKEN
deriving DecidableEq, Repr

/-- Models `SyntaxKind::is_punct`. -/
def SyntaxKind.is_punct : SyntaxKind → Bool
  | .QUESTION | .AMP | .COLON2 | .THIN_ARROW | .FAT_ARROW | .DOT2 | .EQ | .AT
  | .DOT | .BANG | .STAR | .MINUS | .PLUS | .SEMICOLON | .COMMA => true
  | _ => false

/-- Models `SyntaxKind::is_keyword`. -/
def SyntaxKind.is_keyword : SyntaxKind → Bool
  | .BREAK_KW | .CONTINUE_KW | .ELSE_KW | .IF_KW | .LOOP_KW | .MATCH_KW
  | .RETURN_KW | .WHILE_KW | .IN_KW | .FOR_KW | .UNSAFE_KW | .TRUE_KW
  | .FALSE_KW | .SELF_KW | .REF_KW | .FN_KW | .LET_KW => true
  | _ => false

/-- Local-binding names; `hir::Name` is modelled as a numeric identifier. -/
abbrev Name := Nat

/-- Models `calc_binding_hash`: the standard library `DefaultHasher` is a
fixed deterministic function of the hashed pair `(name, shadow_count)`,
modelled here as an injective pairing. -/
def calc_binding_hash (name : Name) (shadow_count : Nat) : Nat :=
  Nat.pair name shadow_count

/-- Models `hir::Access` (receiver access mode of a method). -/
inductive Access
  | shared
  | exclusive
  | owned
deriving DecidableEq, Repr

/-- The facts about a `hir::Local` that `highlight_element`/`highlight_def`
query from the semantic collaborator.  `id` is the identity of the binding
(distinct bindings are distinct `Local` values); the Rust code never reads
it for highlighting, only `name`. -/
structure LocalData where
  name : Option Name
  id : Nat
  isParam : Bool
  isMut : Bool
  isMutRef : Bool
  isCallable : Bool
  isCopy : Bool
deriving DecidableEq, Repr

/-- Models `ide_db::defs::Definition`, with each variant carrying exactly
the semantic facts `highlight_def` queries about it. -/
inductive Definition
  | macroDef
  | field (unionParent : Bool)
  | module
  | function (isAssoc : Bool) (hasSelfParam : Bool) (isUnsafe : Bool)
  | adtStruct
  | adtEnum
  | adtUnion
  | variant
  | constant (isAssoc : Bool)
  | traitDef
  | typeAlias (isAssoc : Bool)
  | builtinType
  | staticDef (isMut : Bool)
  | selfType
  | typeParam
  | constParam
  | local (l : LocalData)
  | lifetimeParam
  | label
deriving DecidableEq, Repr

/-- Models `NameClass` (answer of `NameClass::classify`). -/
inductive NameClass
  | externCrate
  | definition (d : Definition)
  | constReference (d : Definition)
  | patFieldShorthand (field_ref : Definition)
deriving DecidableEq, Repr

/-- Models `NameRefClass` (answer of `NameRefClass::classify`). -/
inductive NameRefClass
  | externCrate
  | definition (d : Definition)
  | fieldShorthand
deriving DecidableEq, Repr

/-- The data of a resolved method call (`sema.resolve_method_call` together
with the queries `highlight_method_call` makes about it). -/
structure MethodCallInfo where
  funcIsUnsafe : Bool
  isUnsafeMethodCall : Bool
  selfParamAccess : Option Access
  receiverIsCopy : Option Bool
deriving DecidableEq, Repr

/-- The data of a prefix expression whose `expr()` is present. -/
structure PrefixExprData where
  exprTyIsRawPtr : Option Bool
  opIsDeref : Bool
  exprIsLiteral : Bool
deriving DecidableEq, Repr

/-- The result of resolving the path around a `self` token to a `Local`. -/
structure SelfPathData where
  isSelf : Bool
  isMut : Bool
  isMutRef : Bool
  isCopy : Bool
deriving DecidableEq, Repr

/-- A syntax element as seen by `highlight_element`: its kind, the kinds of
its ancestors (immediate parent first), and the answers the semantic
collaborator would give for the queries the classifier can make about it. -/
structure ElementData where
  kind : SyntaxKind
  ancestorKinds : List SyntaxKind
  nameClass : Option NameClass
  nameRefClass : Option NameRefClass
  methodCall : Option MethodCallInfo
  isDocComment : Bool
  lifetimeNameClass : Option NameClass
  lifetimeNameRefClass : Option NameRefClass
  isUnsafeRefExpr : Bool
  prefixExpr : Option PrefixExprData
  fieldIsUnion : Option Bool
  nameFirstUpper : Bool
  selfIsMutParam : Bool
  selfPath : Option SelfPathData
  identPatUnsafe : Option Bool
deriving DecidableEq, Repr

/-- The kind of the immediate parent node. -/
def ElementData.parentKind (e : ElementData) : Option SyntaxKind :=
  e.ancestorKinds.head?

/-- Models `parents_match`: the parent chain of the node starts with exactly
the given kinds. -/
def parents_match : List SyntaxKind → List SyntaxKind → Bool
  | _, [] => true
  | [], _ :: _ => false
  | p :: ps, k :: ks => p == k && parents_match ps ks

/-- Models `is_consumed_lvalue`: nested as path-segment / path /
path-expression / argument-list, and the local type is not `Copy`. -/
def is_consumed_lvalue (ancestorKinds : List SyntaxKind) (tyIsCopy : Bool) : Bool :=
  parents_match ancestorKinds [.PATH_SEGMENT, .PATH, .PATH_EXPR, .ARG_LIST] && !tyIsCopy

/-- Models `highlight_def`, arm by arm. -/
def highlight_def : Definition → Highlight
  | .macroDef => .ofTag (.Symbol .MacroSym)
  | .field _ => .ofTag (.Symbol .Field)
  | .module => .ofTag (.Symbol .Module)
  | .function isAssoc hasSelf isUnsafe =>
    let h := Highlight.ofTag (.Symbol .Function)
    let h := if isAssoc then
        (if !hasSelf then (h.addMod .Associated).addMod .Static
         else h.addMod .Associated)
      else h
    if isUnsafe then h.addMod .Unsafe else h
  | .adtStruct => .ofTag (.Symbol .Struct)
  | .adtEnum => .ofTag (.Symbol .Enum)
  | .adtUnion => .ofTag (.Symbol .Union)
  | .variant => .ofTag (.Symbol .Variant)
  | .constant isAssoc =>
    let h := Highlight.ofTag (.Symbol .Const)
    if isAssoc then h.addMod .Associated else h
  | .traitDef => .ofTag (.Symbol .Trait)
  | .typeAlias isAssoc =>
    let h := Highlight.ofTag (.Symbol .TypeAlias)
    if isAssoc then h.addMod .Associated else h
  | .builtinType => .ofTag .BuiltinType
  | .staticDef isMut =>
    let h := Highlight.ofTag (.Symbol .Static)
    if isMut then (h.addMod .Mutable).addMod .Unsafe else h
  | .selfType => .ofTag (.Symbol .Impl)
  | .typeParam => .ofTag (.Symbol .TypeParam)
  | .constParam => .ofTag (.Symbol .ConstParam)
  | .local l =>
    let tag : HighlightTag :=
      if l.isParam then .Symbol .ValueParam else .Symbol .Local
    let h := Highlight.ofTag tag
    let h := if l.isMut || l.isMutRef then h.addMod .Mutable else h
    if l.isCallable then h.addMod .Callable else h
  | .lifetimeParam => .ofTag (.Symbol .LifetimeParam)
  | .label => .ofTag (.Symbol .Label)

/-- Models `highlight_method_call` (with the method already resolved). -/
def highlight_method_call (m : MethodCallInfo) : Highlight :=
  let h := (Highlight.ofTag (.Symbol .Function)).addMod .Associated
  let h := if m.funcIsUnsafe || m.isUnsafeMethodCall then h.addMod .Unsafe else h
  match m.selfParamAccess with
  | none => h
  | some .shared => h
  | some .exclusive => h.addMod .Mutable
  | some .owned =>
    match m.receiverIsCopy with
    | some false => h.addMod .Consuming
    | _ => h

/-- Models `highlight_func_by_name_ref`: only fires when the parent is a
method-call expression and the call resolves. -/
def highlight_func_by_name_ref (e : ElementData) : Option Highlight :=
  if e.parentKind = some .METHOD_CALL_EXPR then
    e.methodCall.map highlight_method_call
  else none

/-- Models the source function highlight_name_by_syntax (syntax-only
fallback for `NAME`); renamed here. -/
def highlight_name_syntactic (e : ElementData) : Highlight :=
  match e.parentKind with
  | none => .ofTag .UnresolvedReference
  | some k =>
    .ofTag (match k with
      | .STRUCT => .Symbol .Struct
      | .ENUM => .Symbol .Enum
      | .VARIANT => .Symbol .Variant
      | .UNION => .Symbol .Union
      | .TRAIT => .Symbol .Trait
      | .TYPE_ALIAS => .Symbol .TypeAlias
      | .TYPE_PARAM => .Symbol .TypeParam
      | .RECORD_FIELD => .Symbol .Field
      | .MODULE => .Symbol .Module
      | .FN => .Symbol .Function
      | .CONST => .Symbol .Const
      | .STATIC => .Symbol .Static
      | .IDENT_PAT => .Symbol .Local
      | _ => .UnresolvedReference)

/-- Models the source function highlight_name_ref_by_syntax (syntax-only
fallback for `NAME_REF`); renamed here. -/
def highlight_name_ref_syntactic (e : ElementData) : Highlight :=
  match e.parentKind with
  | none => .ofTag .UnresolvedReference
  | some .METHOD_CALL_EXPR =>
    match e.methodCall with
    | some m => highlight_method_call m
    | none => .ofTag (.Symbol .Function)
  | some .FIELD_EXPR =>
    if e.fieldIsUnion = some true then
      (Highlight.ofTag (.Symbol .Field)).addMod .Unsafe
    else .ofTag (.Symbol .Field)
  | some .PATH_SEGMENT =>
    match e.ancestorKinds.get? 1 with
    | some .PATH =>
      match e.ancestorKinds.get? 2 with
      | some .PATH_EXPR =>
        match e.ancestorKinds.get? 3 with
        | none => .ofTag .UnresolvedReference
        | some .CALL_EXPR => .ofTag (.Symbol .Function)
        | some _ =>
          .ofTag (if e.nameFirstUpper then .Symbol .Struct else .Symbol .Const)
      | _ =>
        .ofTag (if e.nameFirstUpper then .Symbol .Struct else .Symbol .Module)
    | _ => .ofTag .UnresolvedReference
  | some _ => .ofTag .UnresolvedReference

/-- The punctuation part of the big `match` in `highlight_element` (the
guarded arms under `p if p.is_punct()`, in source order).  A `none` result
models the `?` early returns of the whole function. -/
def punctHighlight (e : ElementData) : Option Highlight :=
  let pk := e.parentKind
  if e.kind = .AMP then
    let is_unsafe := pk = some .REF_EXPR ∧ e.isUnsafeRefExpr = true
    some (if is_unsafe then (Highlight.ofTag .Operator).addMod .Unsafe
          else .ofTag .Operator)
  else if e.kind = .COLON2 ∨ e.kind = .THIN_ARROW ∨ e.kind = .FAT_ARROW
      ∨ e.kind = .DOT2 ∨ e.kind = .EQ ∨ e.kind = .AT ∨ e.kind = .DOT then
    some (.ofTag .Operator)
  else if e.kind = .BANG ∧ pk = some .MACRO_CALL then
    some (.ofTag (.Symbol .MacroSym))
  else if e.kind = .BANG ∧ pk = some .NEVER_TYPE then
    some (.ofTag .BuiltinType)
  else if e.kind = .STAR ∧ pk = some .PTR_TYPE then
    some (.ofTag .Keyword)
  else if e.kind = .STAR ∧ pk = some .PREFIX_EXPR then
    match e.prefixExpr with
    | none => none
    | some pe =>
      match pe.exprTyIsRawPtr with
      | none => none
      | some rawPtr =>
        if rawPtr then some ((Highlight.ofTag .Operator).addMod .Unsafe)
        else if pe.opIsDeref then some (.ofTag .Operator)
        else some (.ofTag .Punctuation)
  else if e.kind = .MINUS ∧ pk = some .PREFIX_EXPR then
    match e.prefixExpr with
    | none => none
    | some pe =>
      some (.ofTag (if pe.exprIsLiteral then .NumericLiteral else .Operator))
  else if pk = some .PREFIX_EXPR then some (.ofTag .Operator)
  else if pk = some .BIN_EXPR then some (.ofTag .Operator)
  else if pk = some .RANGE_EXPR then some (.ofTag .Operator)
  else if pk = some .RANGE_PAT then some (.ofTag .Operator)
  else if pk = some .REST_PAT then some (.ofTag .Operator)
  else if pk = some .ATTR then some (.ofTag .Attribute)
  else some (.ofTag .Punctuation)

/-- The keyword part of the big `match` in `highlight_element` (the arms
under `k if k.is_keyword()`); this part never fails. -/
def keywordHighlight (e : ElementData) : Highlight :=
  let h := Highlight.ofTag .Keyword
  match e.kind with
  | .BREAK_KW | .CONTINUE_KW | .ELSE_KW | .IF_KW | .LOOP_KW | .MATCH_KW
  | .RETURN_KW | .WHILE_KW | .IN_KW => h.addMod .ControlFlow
  | .FOR_KW =>
    if e.parentKind ≠ some .IMPL then h.addMod .ControlFlow else h
  | .UNSAFE_KW => h.addMod .Unsafe
  | .TRUE_KW | .FALSE_KW => .ofTag .BoolLiteral
  | .SELF_KW =>
    let h := Highlight.ofTag (.Symbol .SelfParam)
    let mutCond : Bool := e.selfIsMutParam ||
      (match e.selfPath with
       | some sp => sp.isSelf && (sp.isMut || sp.isMutRef)
       | none => false)
    let h := if mutCond then h.addMod .Mutable else h
    match e.selfPath with
    | some sp =>
      if is_consumed_lvalue e.ancestorKinds sp.isCopy then h.addMod .Consuming
      else h
    | none => h
  | .REF_KW =>
    match e.identPatUnsafe with
    | some true => h.addMod .Unsafe
    | _ => h
  | _ => h

/-- Models `highlight_element`.  Takes the `syntactic_name_ref_highlighting`
flag and the mutable `bindings_shadow_count` table (a total map with
default 0, mirroring `entry().or_default()`); returns the updated table and
the optional highlight with optional binding hash.  A `none` second
component covers both the `_ => return None` arm and the `?` early
returns. -/
def highlight_element (syntactic : Bool) (counts : Name → Nat)
    (e : ElementData) : (Name → Nat) × Option (Highlight × Option Nat) :=
  match e.kind with
  | .FN => (fun _ => 0, none)
  | .NAME =>
    let withHash : (Name → Nat) × Option Nat :=
      match e.nameClass with
      | some (.definition (.local l)) =>
        match l.name with
        | some n =>
          (Function.update counts n (counts n + 1),
           some (calc_binding_hash n (counts n + 1)))
        | none => (counts, none)
      | _ => (counts, none)
    let h : Highlight :=
      match e.nameClass with
      | some .externCrate => .ofTag (.Symbol .Module)
      | some (.definition d) => (highlight_def d).addMod .Definition
      | some (.constReference d) => highlight_def d
      | some (.patFieldShorthand fr) =>
        let h := Highlight.ofTag (.Symbol .Field)
        match fr with
        | .field true => h.addMod .Unsafe
        | _ => h
      | none => (highlight_name_syntactic e).addMod .Definition
    (withHash.1, some (h, withHash.2))
  | .NAME_REF =>
    if e.ancestorKinds.contains .ATTR then
      (counts, some (.ofTag (.Symbol .Function), none))
    else
      match highlight_func_by_name_ref e with
      | some h => (counts, some (h, none))
      | none =>
        match e.nameRefClass with
        | some .externCrate => (counts, some (.ofTag (.Symbol .Module), none))
        | some (.definition d) =>
          let bindingHash : Option Nat :=
            match d with
            | .local l =>
              match l.name with
              | some n => some (calc_binding_hash n (counts n))
              | none => none
            | _ => none
          let h := highlight_def d
          let h := match d with
            | .local l =>
              if is_consumed_lvalue e.ancestorKinds l.isCopy then
                h.addMod .Consuming
              else h
            | _ => h
          let h := match d, e.parentKind with
            | .field isUnion, some k =>
              if (k = .FIELD_EXPR ∨ k = .RECORD_PAT_FIELD) ∧ isUnion = true then
                h.addMod .Unsafe
              else h
            | _, _ => h
          (counts, some (h, bindingHash))
        | some .fieldShorthand => (counts, some (.ofTag (.Symbol .Field), none))
        | none =>
          if syntactic then (counts, some (highlight_name_ref_syntactic e, none))
          else (counts, some (.ofTag .UnresolvedReference, none))
  | .COMMENT =>
    let h := Highlight.ofTag .Comment
    (counts, some (if e.isDocComment then h.addMod .Documentation else h, none))
  | .STRING | .BYTE_STRING => (counts, some (.ofTag .StringLiteral, none))
  | .ATTR => (counts, some (.ofTag .Attribute, none))
  | .INT_NUMBER | .FLOAT_NUMBER => (counts, some (.ofTag .NumericLiteral, none))
  | .BYTE => (counts, some (.ofTag .ByteLiteral, none))
  | .CHAR => (counts, some (.ofTag .CharLiteral, none))
  | .QUESTION =>
    (counts, some ((Highlight.ofTag .Operator).addMod .ControlFlow, none))
  | .LIFETIME =>
    let h : Highlight :=
      match e.lifetimeNameClass with
      | some (.definition d) => (highlight_def d).addMod .Definition
      | none =>
        (match e.lifetimeNameRefClass with
         | some (.definition d) => highlight_def d
         | _ => .ofTag (.Symbol .LifetimeParam))
      | some _ => (Highlight.ofTag (.Symbol .LifetimeParam)).addMod .Definition
    (counts, some (h, none))
  | k =>
    if k.is_punct then
      match punctHighlight e with
      | some h => (counts, some (h, none))
      | none => (counts, none)
    else if k.is_keyword then (counts, some (keywordHighlight e, none))
    else (counts, none)


/-- Adding a modifier sets exactly that bit. -/
theorem hasMod_addMod_self (h : Highlight) (m : HighlightModifier) :
    (h.addMod m).hasMod m = true := by
  rw [Highlight.addMod]
  by_cases hm : m ∈ h.mods <;> simp [hm, Highlight.hasMod]

/-- Adding a modifier keeps the tag. -/
theorem tag_addMod (h : Highlight) (m : HighlightModifier) :
    (h.addMod m).tag = h.tag := by
  rw [Highlight.addMod]
  by_cases hm : m ∈ h.mods <;> simp [hm]

/-- `highlight_def` on a local never sets the consuming modifier. -/
theorem local_def_no_consuming (l : LocalData) :
    (highlight_def (.local l)).hasMod .Consuming = false := by
  rcases l with ⟨nm, i, p, m, mr, cb, cp⟩
  cases p <;> cases m <;> cases mr <;> cases cb <;>
    simp [highlight_def, Highlight.ofTag, Highlight.addMod, Highlight.hasMod]

/-- The tag `highlight_def` gives a local: value-param for parameters,
local otherwise. -/
theorem local_def_tag (l : LocalData) :
    (highlight_def (.local l)).tag =
      (if l.isParam then HighlightTag.Symbol .ValueParam
       else HighlightTag.Symbol .Local) := by
  rcases l with ⟨nm, i, p, m, mr, cb, cp⟩
  cases p <;> cases m <;> cases mr <;> cases cb <;>
    simp [highlight_def, Highlight.ofTag, Highlight.addMod]

/-- Claim C5: a reference to a local variable receives the consuming
modifier exactly when the reference is syntactically nested as path-segment
/ path / path-expression / argument-list and the local type is not
copyable; the tag is the local's variable tag (value-param or local). -/
theorem claim_C5_consuming_modifier (syntactic : Bool) (counts : Name → Nat)
    (e : ElementData) (l : LocalData)
    (hk : e.kind = .NAME_REF)
    (hattr : e.ancestorKinds.contains .ATTR = false)
    (hmc : e.methodCall = none)
    (hcls : e.nameRefClass = some (.definition (.local l))) :
    ((highlight_element syntactic counts e).2).map
        (fun x => (x.1.tag, x.1.hasMod .Consuming)) =
      some ((if l.isParam then HighlightTag.Symbol .ValueParam
             else HighlightTag.Symbol .Local),
            parents_match e.ancestorKinds
                [.PATH_SEGMENT, .PATH, .PATH_EXPR, .ARG_LIST] && !l.isCopy) := by
  have hnm : SyntaxKind.ATTR ∉ e.ancestorKinds := by
    simpa using hattr
  simp only [highlight_element, hk, hcls, highlight_func_by_name_ref, hmc,
    Option.map_none, ite_self, hattr, Bool.false_eq_true, if_false]
  by_cases hc : is_consumed_lvalue e.ancestorKinds l.isCopy = true
  · rw [is_consumed_lvalue] at hc
    simp [hc, is_consumed_lvalue, hasMod_addMod_self, tag_addMod,
      local_def_tag, hnm]
  · rw [is_consumed_lvalue] at hc
    rw [Bool.not_eq_true] at hc
    simp [hc, is_consumed_lvalue, local_def_no_consuming, local_def_tag, hnm]

/-- Claim C5 witness: in `foo!(bar)` with `bar` a non-copy local passed by
value, the reference gets the local (variable) tag plus consuming. -/
theorem claim_C5_consuming_modifier_witness :
    ((highlight_element false (fun _ => 0)
        ⟨.NAME_REF, [.PATH_SEGMENT, .PATH, .PATH_EXPR, .ARG_LIST], none,
         some (.definition (.local ⟨some 7, 0, false, false, false, false, false⟩)),
         none, false, none, none, false, none, none, false, false, none, none⟩).2).map
        (fun x => (x.1.tag, x.1.hasMod .Consuming)) =
      some (HighlightTag.Symbol .Local, true) := by
  have h := claim_C5_consuming_modifier false (fun _ => 0)
    ⟨.NAME_REF, [.PATH_SEGMENT, .PATH, .PATH_EXPR, .ARG_LIST], none,
     some (.definition (.local ⟨some 7, 0, false, false, false, false, false⟩)),
     none, false, none, none, false, none, none, false, false, none, none⟩
    ⟨some 7, 0, false, false, false, false, false⟩ rfl (by decide) rfl rfl
  simpa using h

/-- The syntax kinds for which some arm of the `highlight_element` match
applies (the explicitly matched kinds plus the punctuation and keyword
guard groups). -/
def hasClassificationRule (k : SyntaxKind) : Bool :=
  match k with
  | .FN | .NAME | .NAME_REF | .COMMENT | .STRING | .BYTE_STRING | .ATTR
  | .INT_NUMBER | .FLOAT_NUMBER | .BYTE | .CHAR | .QUESTION | .LIFETIME => true
  | k => k.is_punct || k.is_keyword

/-- Claim C9: the token classifier is total — in the embedding it is a total
function — and when no classification rule applies to the element's kind it
returns no highlight and leaves the shadow-count table untouched, rather
than failing. -/
theorem claim_C9_classifier_total (syntactic : Bool) (counts : Name → Nat)
    (e : ElementData) (h : hasClassificationRule e.kind = false) :
    highlight_element syntactic counts e = (counts, none) := by
  obtain ⟨k, anc, nc, nrc, mc, idc, lnc, lnrc, iur, pe, fiu, nfu, smp, sp, ipu⟩ := e
  simp only at h
  cases k <;>
    simp_all [highlight_element, hasClassificationRule, SyntaxKind.is_punct,
      SyntaxKind.is_keyword]

/-- Claim C9 witness: a whitespace token gets no highlight. -/
theorem claim_C9_classifier_total_witness :
    highlight_element false (fun _ => 0)
      ⟨.WHITESPACE, [], none, none, none, false, none, none, false, none,
       none, false, false, none, none⟩ = (fun _ => 0, none) :=
  claim_C9_classifier_total false (fun _ => 0)
    ⟨.WHITESPACE, [], none, none, none, false, none, none, false, none,
     none, false, false, none, none⟩ (by decide)

/-- Claim C10: a name reference with an attribute node among its ancestors
is tagged with the function tag, unconditionally and independently of every
semantic answer carried by the element (the whole element, including all
collaborator answers, is universally quantified). -/
theorem claim_C10_name_ref_in_attr (syntactic : Bool) (counts : Name → Nat)
    (e : ElementData) (hk : e.kind = .NAME_REF)
    (ha : e.ancestorKinds.contains .ATTR = true) :
    highlight_element syntactic counts e =
      (counts, some (Highlight.ofTag (.Symbol .Function), none)) := by
  have ham : SyntaxKind.ATTR ∈ e.ancestorKinds := by
    simpa using ha
  simp [highlight_element, hk, ham]

/-- Claim C10 witness: even when the collaborator claims the reference
resolves to a struct, inside an attribute it is tagged as a function. -/
theorem claim_C10_name_ref_in_attr_witness :
    highlight_element false (fun _ => 0)
      ⟨.NAME_REF, [.PATH_SEGMENT, .PATH, .ATTR], none,
       some (.definition .adtStruct), none, false, none, none, false, none,
       none, false, false, none, none⟩ =
      (fun _ => 0, some (Highlight.ofTag (.Symbol .Function), none)) :=
  claim_C10_name_ref_in_attr false (fun _ => 0)
    ⟨.NAME_REF, [.PATH_SEGMENT, .PATH, .ATTR], none,
     some (.definition .adtStruct), none, false, none, none, false, none,
     none, false, false, none, none⟩ rfl (by decide)


/-- The name declared by an element: a `NAME` node classified as the
definition of a local with a known name — the only case in which
`highlight_element` increments a shadow counter. -/
def declOf? (e : ElementData) : Option Name :=
  match e.kind, e.nameClass with
  | .NAME, some (.definition (.local l)) => l.name
  | _, _ => none

theorem highlight_element_counts (syntactic : Bool) (counts : Name → Nat)
    (e : ElementData) (hfn : e.kind ≠ .FN) :
    (highlight_element syntactic counts e).1 =
      match declOf? e with
      | some n => Function.update counts n (counts n + 1)
      | none => counts := by
  obtain ⟨k, anc, nc, nrc, mc, idc, lnc, lnrc, iur, pe, fiu, nfu, smp, sp, ipu⟩ := e
  cases k <;> simp only [highlight_element, declOf?] <;> (try rfl) <;>
    (try (exact absurd rfl hfn)) <;>
    (repeat' split) <;> (first | rfl | simp_all)


/-- The name referenced by an element: a `NAME_REF` outside attributes, not
already classified as a resolved method call, classified as a reference to
a local with a known name — the only case in which `highlight_element`
emits a binding hash for a reference. -/
def refOf? (e : ElementData) : Option Name :=
  if e.kind = .NAME_REF ∧ e.ancestorKinds.contains .ATTR = false
      ∧ highlight_func_by_name_ref e = none then
    match e.nameRefClass with
    | some (.definition (.local l)) => l.name
    | _ => none
  else none

theorem highlight_element_decl_hash (syntactic : Bool) (counts : Name → Nat)
    (e : ElementData) (n : Name) (hd : declOf? e = some n) :
    ((highlight_element syntactic counts e).2).bind (fun x => x.2) =
      some (calc_binding_hash n (counts n + 1)) := by
  obtain ⟨k, anc, nc, nrc, mc, idc, lnc, lnrc, iur, pe, fiu, nfu, smp, sp, ipu⟩ := e
  cases k <;> simp only [declOf?] at hd <;> (try cases hd)
  rcases nc with _ | nc0
  · cases hd
  · rcases nc0 with _ | d | d | fr
    · cases hd
    · cases d <;> (try cases hd)
      next l =>
        have hname : l.name = some n := hd
        simp [highlight_element, hname]
    · cases hd
    · cases hd

theorem highlight_element_ref_hash (syntactic : Bool) (counts : Name → Nat)
    (e : ElementData) (n : Name) (hr : refOf? e = some n) :
    ((highlight_element syntactic counts e).2).bind (fun x => x.2) =
      some (calc_binding_hash n (counts n)) := by
  rw [refOf?] at hr
  split at hr
  case isFalse => cases hr
  case isTrue hcond =>
    obtain ⟨hk, hattr, hmc⟩ := hcond
    rcases hcls : e.nameRefClass with _ | nrc0
    · rw [hcls] at hr; cases hr
    · rw [hcls] at hr
      rcases nrc0 with _ | d | _
      · cases hr
      · cases d <;> (try cases hr)
        case definition.local l =>
          have hname : l.name = some n := hr
          simp only [highlight_element, hk, hattr, hmc, hcls,
            Bool.false_eq_true, if_false]
          simp [hname]
      · cases hr

/-- Successive calls of `highlight_element` with the shadow-count table
threaded through, as the traversal driver performs them; returns the
per-element results. -/
def runElements (syntactic : Bool) (counts : Name → Nat) :
    List ElementData → List (Option (Highlight × Option Nat))
  | [] => []
  | e :: es =>
    (highlight_element syntactic counts e).2 ::
      runElements syntactic (highlight_element syntactic counts e).1 es

/-- The shadow-count table after a sequence of classifier calls. -/
def countsAfter (syntactic : Bool) (counts : Name → Nat) :
    List ElementData → (Name → Nat)
  | [] => counts
  | e :: es => countsAfter syntactic (highlight_element syntactic counts e).1 es

/-- How many elements of the list declare a local named `n`. -/
def declCount (n : Name) (es : List ElementData) : Nat :=
  (es.filter (fun e => declOf? e = some n)).length

/-- The binding hash emitted for the `i`-th element of a run. -/
def hashOf (syntactic : Bool) (counts : Name → Nat) (es : List ElementData)
    (i : Nat) : Option Nat :=
  match (runElements syntactic counts es).get? i with
  | some (some (_, h)) => h
  | _ => none

theorem declCount_nil (n : Name) : declCount n [] = 0 := rfl

theorem declCount_cons (n : Name) (e : ElementData) (es : List ElementData) :
    declCount n (e :: es) =
      (if declOf? e = some n then 1 else 0) + declCount n es := by
  rw [declCount, List.filter_cons]
  split <;> simp_all [declCount, Nat.add_comm]

theorem countsAfter_eq (syntactic : Bool) (counts : Name → Nat)
    (es : List ElementData) (hfn : ∀ e ∈ es, e.kind ≠ .FN) (n : Name) :
    countsAfter syntactic counts es n = counts n + declCount n es := by
  induction es generalizing counts with
  | nil => simp [countsAfter, declCount_nil]
  | cons e es ih =>
    rw [countsAfter,
      highlight_element_counts syntactic counts e (hfn e (List.mem_cons_self _ _)),
      ih _ (fun x hx => hfn x (List.mem_cons_of_mem _ hx)), declCount_cons]
    rcases hd : declOf? e with _ | m
    · simp [hd]
    · by_cases hmn : m = n
      · subst hmn
        simp [Function.update_same]
        try omega
      · simp [Function.update_noteq (Ne.symm hmn), hmn]

theorem hashOf_decl (syntactic : Bool) (counts : Name → Nat)
    (es : List ElementData) (hfn : ∀ e ∈ es, e.kind ≠ .FN)
    (i : Nat) (ei : ElementData) (n : Name)
    (hgi : es.get? i = some ei) (hdi : declOf? ei = some n) :
    hashOf syntactic counts es i =
      some (calc_binding_hash n (counts n + declCount n (es.take i) + 1)) := by
  induction es generalizing counts i with
  | nil => cases hgi
  | cons e es ih =>
    cases i with
    | zero =>
      cases hgi
      have h2 := highlight_element_decl_hash syntactic counts ei n hdi
      rw [hashOf]
      rcases ho : (highlight_element syntactic counts ei).2 with _ | ⟨hl, bh⟩
      · rw [ho] at h2; cases h2
      · rw [ho] at h2
        simp only [Option.some_bind] at h2
        simp [runElements, ho, h2, declCount_nil]
    | succ i0 =>
      rw [hashOf]
      have hrec := ih ((highlight_element syntactic counts e).1)
        (fun x hx => hfn x (List.mem_cons_of_mem _ hx)) i0 hgi
      rw [hashOf] at hrec
      simp only [runElements, List.get?_cons_succ]
      rw [hrec]
      rw [highlight_element_counts syntactic counts e (hfn e (List.mem_cons_self _ _))]
      rcases hd : declOf? e with _ | m
      · simp [hd, List.take_cons, declCount_cons]
      · by_cases hmn : m = n
        · subst hmn
          simp [Function.update_same, List.take_cons, declCount_cons, hd,
            calc_binding_hash, Nat.pair_eq_pair]
          try omega
        · simp [Function.update_noteq (Ne.symm hmn), hmn, List.take_cons,
            declCount_cons, hd]


theorem hashOf_ref (syntactic : Bool) (counts : Name → Nat)
    (es : List ElementData) (hfn : ∀ e ∈ es, e.kind ≠ .FN)
    (k : Nat) (ek : ElementData) (n : Name)
    (hgk : es.get? k = some ek) (hrk : refOf? ek = some n) :
    hashOf syntactic counts es k =
      some (calc_binding_hash n (counts n + declCount n (es.take k))) := by
  induction es generalizing counts k with
  | nil => cases hgk
  | cons e es ih =>
    cases k with
    | zero =>
      cases hgk
      have h2 := highlight_element_ref_hash syntactic counts ek n hrk
      rw [hashOf]
      rcases ho : (highlight_element syntactic counts ek).2 with _ | ⟨hl, bh⟩
      · rw [ho] at h2; cases h2
      · rw [ho] at h2
        simp only [Option.some_bind] at h2
        simp [runElements, ho, h2, declCount_nil]
    | succ k0 =>
      rw [hashOf]
      have hrec := ih ((highlight_element syntactic counts e).1)
        (fun x hx => hfn x (List.mem_cons_of_mem _ hx)) k0 hgk
      rw [hashOf] at hrec
      simp only [runElements, List.get?_cons_succ]
      rw [hrec]
      rw [highlight_element_counts syntactic counts e (hfn e (List.mem_cons_self _ _))]
      rcases hd : declOf? e with _ | m
      · simp [hd, List.take_cons, declCount_cons]
      · by_cases hmn : m = n
        · subst hmn
          simp [Function.update_same, List.take_cons, declCount_cons, hd,
            calc_binding_hash, Nat.pair_eq_pair]
          try omega
        · simp [Function.update_noteq (Ne.symm hmn), hmn, List.take_cons,
            declCount_cons, hd]

theorem declCount_append (n : Name) (l1 l2 : List ElementData) :
    declCount n (l1 ++ l2) = declCount n l1 + declCount n l2 := by
  simp [declCount, List.filter_append]

theorem declCount_take_le (n : Name) (es : List ElementData) (i j : Nat)
    (hij : i ≤ j) :
    declCount n (es.take i) ≤ declCount n (es.take j) := by
  obtain ⟨d, rfl⟩ : ∃ d, j = i + d := ⟨j - i, by omega⟩
  rw [List.take_add, declCount_append]
  exact Nat.le_add_right _ _

theorem declCount_take_succ (n : Name) (es : List ElementData) (i : Nat)
    (ei : ElementData) (hgi : es.get? i = some ei) (hdi : declOf? ei = some n) :
    declCount n (es.take (i + 1)) = declCount n (es.take i) + 1 := by
  rw [List.take_succ, declCount_append]
  rw [← List.get?_eq_getElem?, hgi]
  simp [declCount, hdi]

/-- Claim C4 (amended): with the shadow-count table starting empty (as at
function entry) and no function-definition node in the run, (1) two local
declarations of the same name receive distinct binding hashes; (2) a
reference classified as that local name is emitted with the hash of the
name together with the CURRENT shadow count, i.e. the number of same-named
declarations already traversed; hence (3) the reference's hash equals a
given same-named declaration's hash exactly when that declaration is the
most recent one — when exactly one more same-named declaration occurs in
the prefix up to the reference than up to the declaration.  In particular a
reference whose resolved binding has since been shadowed carries the
shadowing binding's hash, not its own declaration's (see the
counterexample). -/
theorem claim_C4_binding_hash (es : List ElementData)
    (hfn : ∀ e ∈ es, e.kind ≠ .FN)
    (i j k : Nat) (ei ej ek : ElementData) (n : Name)
    (hij : i < j)
    (hgi : es.get? i = some ei) (hdi : declOf? ei = some n)
    (hgj : es.get? j = some ej) (hdj : declOf? ej = some n)
    (hgk : es.get? k = some ek) (hrk : refOf? ek = some n) :
    hashOf false (fun _ => 0) es i ≠ hashOf false (fun _ => 0) es j ∧
    hashOf false (fun _ => 0) es k =
      some (calc_binding_hash n (declCount n (es.take k))) ∧
    (hashOf false (fun _ => 0) es k = hashOf false (fun _ => 0) es i ↔
      declCount n (es.take k) = declCount n (es.take i) + 1) := by
  have hi := hashOf_decl false (fun _ => 0) es hfn i ei n hgi hdi
  have hj := hashOf_decl false (fun _ => 0) es hfn j ej n hgj hdj
  have hk := hashOf_ref false (fun _ => 0) es hfn k ek n hgk hrk
  simp only [Nat.zero_add] at hi hj hk
  refine ⟨?_, by simpa using hk, ?_⟩
  · rw [hi, hj]
    intro hcontra
    have h2 : declCount n (es.take i) + 1 = declCount n (es.take j) + 1 := by
      simpa [calc_binding_hash, Nat.pair_eq_pair] using hcontra
    have hmono : declCount n (es.take (i + 1)) ≤ declCount n (es.take j) :=
      declCount_take_le n es (i + 1) j hij
    rw [declCount_take_succ n es i ei hgi hdi] at hmono
    omega
  · rw [hi, hk]
    constructor
    · intro hcontra
      simpa [calc_binding_hash, Nat.pair_eq_pair] using hcontra
    · intro hcount
      rw [hcount]

/-- A `NAME` node declaring local `id` named `n` (fresh binding site). -/
def declElem (n : Name) (id : Nat) : ElementData :=
  ⟨.NAME, [], some (.definition (.local ⟨some n, id, false, false, false, false, false⟩)),
   none, none, false, none, none, false, none, none, false, false, none, none⟩

/-- A `NAME_REF` node resolving to local `id` named `n`. -/
def refElem (n : Name) (id : Nat) : ElementData :=
  ⟨.NAME_REF, [], none,
   some (.definition (.local ⟨some n, id, false, false, false, false, false⟩)),
   none, false, none, none, false, none, none, false, false, none, none⟩

/-- Claim C4 counterexample: two declarations of name 5 (locals 0 and 1),
then a reference RESOLVING TO LOCAL 0 (the first declaration, e.g. a use
after an inner shadowing scope closed): the reference is emitted with
binding hash `pair 5 2` — the hash of the SECOND declaration — not with
the first declaration's hash `pair 5 1`, contradicting the claim that every
reference shares its resolved binding's declaration hash. -/
theorem claim_C4_binding_hash_counterexample :
    (refElem 5 0).nameRefClass =
      some (.definition (.local ⟨some 5, 0, false, false, false, false, false⟩)) ∧
    (declElem 5 0).nameClass =
      some (.definition (.local ⟨some 5, 0, false, false, false, false, false⟩)) ∧
    hashOf false (fun _ => 0) [declElem 5 0, declElem 5 1, refElem 5 0] 0 =
      some (calc_binding_hash 5 1) ∧
    hashOf false (fun _ => 0) [declElem 5 0, declElem 5 1, refElem 5 0] 2 =
      some (calc_binding_hash 5 2) ∧
    calc_binding_hash 5 2 ≠ calc_binding_hash 5 1 := by
  refine ⟨rfl, rfl, ?_, ?_, by decide⟩ <;> decide

/-- Claim C4 witness: the amended statement at a concrete run with two
shadowed declarations and a reference to the most recent one. -/
theorem claim_C4_binding_hash_witness :
    hashOf false (fun _ => 0) [declElem 5 0, declElem 5 1, refElem 5 1] 0 ≠
      hashOf false (fun _ => 0) [declElem 5 0, declElem 5 1, refElem 5 1] 1 ∧
    hashOf false (fun _ => 0) [declElem 5 0, declElem 5 1, refElem 5 1] 2 =
      some (calc_binding_hash 5
        (declCount 5 ([declElem 5 0, declElem 5 1, refElem 5 1].take 2))) ∧
    (hashOf false (fun _ => 0) [declElem 5 0, declElem 5 1, refElem 5 1] 2 =
        hashOf false (fun _ => 0) [declElem 5 0, declElem 5 1, refElem 5 1] 0 ↔
      declCount 5 ([declElem 5 0, declElem 5 1, refElem 5 1].take 2) =
        declCount 5 ([declElem 5 0, declElem 5 1, refElem 5 1].take 0) + 1) :=
  claim_C4_binding_hash [declElem 5 0, declElem 5 1, refElem 5 1]
    (by decide) 0 1 2 (declElem 5 0) (declElem 5 1) (refElem 5 1) 5
    (by decide) rfl (by decide) rfl (by decide) rfl (by decide)


/-- One event of the pre-order walk (`root.preorder_with_tokens()`), carrying
the element (with its oracle answers) on enter and the element range on
both sides. -/
inductive WalkEvent
  | enter (e : ElementData) (range : TextRange)
  | leave (range : TextRange)

/-- The traversal state of `highlight`: the flattening stack and the
shadow-count table.  `adds` is pure instrumentation recording every
`HighlightedRange` passed to `stack.add`, in order; it influences
nothing. -/
structure TravState where
  stack : HighlightedRangeStack.Stack
  counts : Name → Nat
  adds : List HighlightedRange

/-- One iteration of the walk loop of `highlight` (main classification
path): push/pop first, then the viewport test (`continue` when the event
range does not intersect), then classification and `stack.add` with the
element's FULL range.  `none` models a panic inside the stack machinery. -/
def stepWalk (syntactic : Bool) (viewport : TextRange) (st : TravState) :
    WalkEvent → Option TravState
  | .enter e r =>
    let stack := HighlightedRangeStack.push st.stack
    if (viewport.intersect r).isNone then some { st with stack := stack }
    else
      let counts' := (highlight_element syntactic st.counts e).1
      match (highlight_element syntactic st.counts e).2 with
      | some (h, bh) =>
        match HighlightedRangeStack.add stack ⟨r, h, bh⟩ with
        | some stack' =>
          some ⟨stack', counts', st.adds ++ [⟨r, h, bh⟩]⟩
        | none => none
      | none => some { st with stack := stack, counts := counts' }
  | .leave _ =>
    match HighlightedRangeStack.pop st.stack with
    | some stack' => some { st with stack := stack' }
    | none => none

/-- The walk loop of `highlight` over a list of events. -/
def runWalk (syntactic : Bool) (viewport : TextRange) (st : TravState) :
    List WalkEvent → Option TravState
  | [] => some st
  | ev :: evs =>
    match stepWalk syntactic viewport st ev with
    | some st' => runWalk syntactic viewport st' evs
    | none => none

/-- The initial traversal state: `HighlightedRangeStack::new()` and an
empty `bindings_shadow_count` table. -/
def initState : TravState := ⟨HighlightedRangeStack.new, fun _ => 0, []⟩

/-- Models `highlight`: walk all events, then `stack.flattened()`. -/
def highlight (syntactic : Bool) (viewport : TextRange)
    (events : List WalkEvent) : Option (List HighlightedRange) :=
  match runWalk syntactic viewport initState events with
  | some st => HighlightedRangeStack.flattened st.stack
  | none => none

/-- The highlight (without binding hash) an element receives; independent of
the shadow-count table, which only feeds the hash. -/
def highlightOf (syntactic : Bool) (e : ElementData) : Option Highlight :=
  ((highlight_element syntactic (fun _ => 0) e).2).map Prod.fst

/-- The highlight component of `highlight_element` does not depend on the
shadow-count table. -/
theorem highlight_element_fst_counts (syntactic : Bool) (counts : Name → Nat)
    (e : ElementData) :
    ((highlight_element syntactic counts e).2).map Prod.fst =
      highlightOf syntactic e := by
  obtain ⟨k, anc, nc, nrc, mc, idc, lnc, lnrc, iur, pe, fiu, nfu, smp, sp, ipu⟩ := e
  cases k <;> simp only [highlight_element, highlightOf] <;> (try rfl) <;>
    (repeat' split) <;> (first | rfl | simp_all)

/-- The stateless per-event specification of what gets emitted: an entered
element contributes exactly one pair (its FULL range, its highlight) when
its range intersects the viewport and the classifier yields a highlight,
and nothing otherwise; leave events contribute nothing. -/
def expectedAdds (syntactic : Bool) (viewport : TextRange) :
    List WalkEvent → List (TextRange × Highlight)
  | [] => []
  | .enter e r :: evs =>
    (if (viewport.intersect r).isSome then
       match highlightOf syntactic e with
       | some h => [(r, h)]
       | none => []
     else []) ++ expectedAdds syntactic viewport evs
  | .leave _ :: evs => expectedAdds syntactic viewport evs

/-- The ranges added during a successful walk are exactly the per-event
expectation, appended to whatever was recorded before. -/
theorem runWalk_adds (syntactic : Bool) (viewport : TextRange)
    (events : List WalkEvent) (st0 st : TravState)
    (hrun : runWalk syntactic viewport st0 events = some st) :
    st.adds.map (fun hr => (hr.range, hr.highlight)) =
      st0.adds.map (fun hr => (hr.range, hr.highlight)) ++
        expectedAdds syntactic viewport events := by
  induction events generalizing st0 with
  | nil =>
    simp only [runWalk] at hrun
    cases hrun
    simp [expectedAdds]
  | cons ev evs ih =>
    simp only [runWalk] at hrun
    rcases hstep : stepWalk syntactic viewport st0 ev with _ | st1
    · rw [hstep] at hrun; cases hrun
    · rw [hstep] at hrun
      have hrec := ih st1 hrun
      rw [hrec]
      cases ev with
      | enter e r =>
        rw [stepWalk] at hstep
        by_cases hv : (viewport.intersect r).isNone
        · rw [if_pos hv] at hstep
          cases hstep
          have : (viewport.intersect r).isSome = false := by
            simp_all [Option.isNone_iff_eq_none]
          simp [expectedAdds, this]
        · rw [if_neg hv] at hstep
          have hvs : (viewport.intersect r).isSome = true := by
            rcases hx : viewport.intersect r with _ | z
            · rw [hx] at hv; simp at hv
            · simp
          have hfst := highlight_element_fst_counts syntactic st0.counts e
          rcases hres : (highlight_element syntactic st0.counts e).2
              with _ | ⟨h, bh⟩
          · rw [hres] at hstep hfst
            have hnone : highlightOf syntactic e = none := by
              rw [← hfst]; rfl
            cases hstep
            simp [expectedAdds, hvs, hnone]
          · rw [hres] at hstep hfst
            have hsome : highlightOf syntactic e = some h := by
              rw [← hfst]; rfl
            simp only [HighlightedRangeStack.add, HighlightedRangeStack.push]
              at hstep
            cases hstep
            simp [expectedAdds, hvs, hsome]
      | leave r =>
        rw [stepWalk] at hstep
        rcases hpop : HighlightedRangeStack.pop st0.stack with _ | stack'
        · rw [hpop] at hstep; cases hstep
        · rw [hpop] at hstep
          cases hstep
          simp [expectedAdds]

/-- Claim C7: with a viewport supplied, the ranges emitted into the stack
during a successful walk are EXACTLY those of the entered elements whose
range intersects the viewport and which receive a highlight, each with its
full original element range (never clipped to the viewport); elements not
intersecting the viewport contribute nothing. -/
theorem claim_C7_viewport (syntactic : Bool) (viewport : TextRange)
    (events : List WalkEvent) (st : TravState)
    (hrun : runWalk syntactic viewport initState events = some st) :
    st.adds.map (fun hr => (hr.range, hr.highlight)) =
      expectedAdds syntactic viewport events := by
  have h := runWalk_adds syntactic viewport events initState st hrun
  simpa [initState] using h

/-- A string-literal token element with no special oracle answers. -/
def strToken : ElementData :=
  ⟨.STRING, [], none, none, none, false, none, none, false, none, none,
   false, false, none, none⟩

/-- Claim C7 witness: a concrete walk with one element inside the viewport
and one outside; only the former is emitted, with its full range. -/
theorem claim_C7_viewport_witness :
    ([(⟨⟨0, 2⟩, Highlight.ofTag .StringLiteral, none⟩ : HighlightedRange)]).map
        (fun hr => (hr.range, hr.highlight)) =
      expectedAdds false ⟨0, 10⟩
        [.enter strToken ⟨0, 2⟩, .leave ⟨0, 2⟩,
         .enter strToken ⟨20, 25⟩, .leave ⟨20, 25⟩] :=
  claim_C7_viewport false ⟨0, 10⟩
    [.enter strToken ⟨0, 2⟩, .leave ⟨0, 2⟩,
     .enter strToken ⟨20, 25⟩, .leave ⟨20, 25⟩]
    ⟨[[⟨⟨0, 2⟩, Highlight.ofTag .StringLiteral, none⟩]], fun _ => 0,
     [⟨⟨0, 2⟩, Highlight.ofTag .StringLiteral, none⟩]⟩ rfl

/-- Claim C6: the highlight function is deterministic — it is a pure
function of the walked tree (events with their oracle answers), so equal
trees and equal collaborator answers give identical output: same ranges,
tags, modifier sets and binding hashes in the same order. -/
theorem claim_C6_deterministic (s1 s2 : Bool) (v1 v2 : TextRange)
    (es1 es2 : List WalkEvent)
    (hs : s1 = s2) (hv : v1 = v2) (he : es1 = es2) :
    highlight s1 v1 es1 = highlight s2 v2 es2 := by
  subst hs hv he
  rfl

/-- Claim C6 witness: determinism at a concrete input. -/
theorem claim_C6_deterministic_witness :
    highlight false ⟨0, 10⟩ [.enter strToken ⟨0, 2⟩, .leave ⟨0, 2⟩] =
      highlight false ⟨0, 10⟩ [.enter strToken ⟨0, 2⟩, .leave ⟨0, 2⟩] :=
  claim_C6_deterministic false false ⟨0, 10⟩ ⟨0, 10⟩
    [.enter strToken ⟨0, 2⟩, .leave ⟨0, 2⟩]
    [.enter strToken ⟨0, 2⟩, .leave ⟨0, 2⟩] rfl rfl rfl

/-- A source token as the macro bridge sees it: range, kind, parent kind. -/
structure SrcToken where
  range : TextRange
  kind : SyntaxKind
  parentKind : SyntaxKind
deriving DecidableEq, Repr

/-- Models `sema.descend_into_macros`: the corresponding expanded token, or
the source token itself when the expansion lookup fails. -/
def descend_into_macros (expansion : SrcToken → Option SrcToken)
    (t : SrcToken) : SrcToken :=
  (expansion t).getD t

/-- What the traversal passes to the classifier: the `NAME` / `NAME_REF`
parent of the (descended) token, or the token itself. -/
inductive HLTarget
  | nameNode (t : SrcToken)
  | nameRefNode (t : SrcToken)
  | tokenElem (t : SrcToken)
deriving DecidableEq, Repr

/-- The `match (token.kind(), parent.kind())` promotion: idents under
`NAME`/`NAME_REF` are classified via the parent node. -/
def macroTarget (t : SrcToken) : HLTarget :=
  match t.kind, t.parentKind with
  | .IDENT, .NAME => .nameNode t
  | .IDENT, .NAME_REF => .nameRefNode t
  | _, _ => .tokenElem t

/-- Models the `element_to_highlight` computation of `highlight` for a
token element, paired with the range later given to `stack.add` (bound from
the ORIGINAL element before any substitution).  While a macro call is
active, a non-comment token must be a direct child of the argument token
tree (otherwise it is skipped, modelled by `none`), is descended into the
expansion, and the classification target comes from the descended token;
outside a macro call the element itself is the target. -/
def element_to_highlight (macroCallActive : Bool)
    (expansion : SrcToken → Option SrcToken) (elem : SrcToken) :
    Option (HLTarget × TextRange) :=
  if macroCallActive ∧ ¬(elem.kind = .COMMENT) then
    if elem.parentKind = .TOKEN_TREE then
      some (macroTarget (descend_into_macros expansion elem), elem.range)
    else none
  else some (.tokenElem elem, elem.range)

/-- Claim C8: while a macro invocation is active, for a non-comment token
that is a direct child of the invocation's argument token stream, the
classification target is built from the expanded token when the lookup
succeeds and from the literal source token when it fails, and the range
emitted into the frame is in every case the original source token's
range. -/
theorem claim_C8_macro_bridge (expansion : SrcToken → Option SrcToken)
    (elem : SrcToken) (hc : elem.kind ≠ .COMMENT)
    (ht : elem.parentKind = .TOKEN_TREE) :
    (∀ e', expansion elem = some e' →
      element_to_highlight true expansion elem =
        some (macroTarget e', elem.range)) ∧
    (expansion elem = none →
      element_to_highlight true expansion elem =
        some (macroTarget elem, elem.range)) ∧
    (∀ tgt r, element_to_highlight true expansion elem = some (tgt, r) →
      r = elem.range) := by
  refine ⟨?_, ?_, ?_⟩
  · intro e' hexp
    simp [element_to_highlight, hc, ht, descend_into_macros, hexp]
  · intro hexp
    simp [element_to_highlight, hc, ht, descend_into_macros, hexp]
  · intro tgt r hres
    rw [element_to_highlight, if_pos ⟨rfl, hc⟩, if_pos ht] at hres
    cases hres
    rfl

/-- Claim C8 witness: a concrete ident token in a macro argument list whose
expansion lookup succeeds; the target comes from the expanded token (an
ident under a `NAME_REF` in the expansion) while the emitted range is the
source token's. -/
theorem claim_C8_macro_bridge_witness :
    element_to_highlight true
      (fun t => if t = ⟨⟨5, 8⟩, .IDENT, .TOKEN_TREE⟩
                then some ⟨⟨100, 103⟩, .IDENT, .NAME_REF⟩ else none)
      ⟨⟨5, 8⟩, .IDENT, .TOKEN_TREE⟩ =
      some (macroTarget ⟨⟨100, 103⟩, .IDENT, .NAME_REF⟩, ⟨5, 8⟩) :=
  (claim_C8_macro_bridge
    (fun t => if t = ⟨⟨5, 8⟩, .IDENT, .TOKEN_TREE⟩
              then some ⟨⟨100, 103⟩, .IDENT, .NAME_REF⟩ else none)
    ⟨⟨5, 8⟩, .IDENT, .TOKEN_TREE⟩ (by decide) rfl).1
    ⟨⟨100, 103⟩, .IDENT, .NAME_REF⟩ (by decide)

end SynHL
